import Mathlib

/-!
Shallow embedding of the Ladder-Logic-Engine core (TypeScript) in Lean 4.

The embedded components are:
  * the scan-cycle interpreter `runScanCycle` (simulator module);
  * the layout engine `parseLadderLogic` (logic/parser.ts);
  * the power-flow analyzer `calculatePowerFlow` (logic/powerFlow.ts).

Modelling conventions:
  * JavaScript `Record<string, T>` maps become association lists
    `List (String × T)`; an assignment `m[k] = v` prepends `(k, v)` and a
    read `m[k]` takes the first binding (`List.find?`), defaulting like the
    source does (`!!m[k]`, `m[k] || 0`).
  * JavaScript arrays used as stacks (push/pop at the end) become Lean
    lists with the stack top at the head.
  * JavaScript numbers holding integer quantities (coordinates, timers,
    counters, dt, operand values) become `Int`.
  * `String.prototype.startsWith(p)` is modelled as `strStartsWith`
    (prefix test on the character list).
  * `parseInt(s, 10)` is modelled as `jsParseInt` (optional sign, longest
    digit prefix, `none` for NaN); `parseInt(s,10) || 0` maps NaN to 0.
-/

/-- JS `s.startsWith(pre)`. -/
def strStartsWith (s pre : String) : Bool := pre.toList.isPrefixOf s.toList

/-- Read of a JS boolean record with the source's `!!m[k]` /
`m[k] || false` defaulting. -/
def lookupB (m : List (String × Bool)) (k : String) : Bool :=
  match m.find? (fun p => p.1 == k) with
  | some p => p.2
  | none => false

/-- Read of a JS numeric record with the source's `m[k] || 0` defaulting
(an absent key, like a stored 0, reads as 0). -/
def lookupI (m : List (String × Int)) (k : String) : Int :=
  match m.find? (fun p => p.1 == k) with
  | some p => p.2
  | none => 0

/-- JS record assignment `m[k] = v` (later bindings shadow earlier ones). -/
def setB (m : List (String × Bool)) (k : String) (v : Bool) :
    List (String × Bool) := (k, v) :: m

/-- JS record assignment `m[k] = v` for numeric records. -/
def setI (m : List (String × Int)) (k : String) (v : Int) :
    List (String × Int) := (k, v) :: m

/-- Longest leading digit run of a character list, as a number;
`none` when there is no leading digit. -/
def digitsValue : List Char → Option Nat
  | [] => none
  | c :: cs =>
    if c.isDigit then
      some ((c.toNat - '0'.toNat) * 10 ^ (cs.takeWhile Char.isDigit).length
        + (digitsValue cs).getD 0)
    else none

/-- JS `parseInt(s, 10)`: skip leading whitespace, optional sign, then the
longest digit prefix; `none` models NaN. -/
def jsParseInt (s : String) : Option Int :=
  match s.toList.dropWhile Char.isWhitespace with
  | '-' :: rest => (digitsValue rest).map (fun n => -(n : Int))
  | '+' :: rest => (digitsValue rest).map (fun n => (n : Int))
  | l => (digitsValue l).map (fun n => (n : Int))

/-- The regex test `/^-?\d+$/.test(op)`. -/
def isNumericLit (s : String) : Bool :=
  match s.toList with
  | [] => false
  | '-' :: rest => !rest.isEmpty && rest.all Char.isDigit
  | l => l.all Char.isDigit

/-- `parseOperand` of the simulator: constant `K` literals, `D` registers,
plain numeric tokens, then named-variable lookup (default 0). -/
def parseOperand (op : String) (dataState : List (String × Int)) : Int :=
  if op == "" then 0
  else if strStartsWith op "K" then (jsParseInt (op.drop 1)).getD 0
  else if strStartsWith op "D" then lookupI dataState op
  else if isNumericLit op then (jsParseInt op).getD 0
  else lookupI dataState op

inductive InstrType
  | LD | LDI | AND | ANI | OR | ORI | OUT | ORB | ANB
  | MOV | RST
  | LD_EQ | AND_EQ | OR_EQ
  | MPS | MRD | MPP
  | MOVP
  | SET
deriving DecidableEq, Repr

structure Instruction where
  id : Nat
  type : InstrType
  value : String
  args : Option (List String)
deriving DecidableEq, Repr

structure SimulationState where
  io : List (String × Bool)
  data : List (String × Int)
  timers : List (String × Int)
  counters : List (String × Int)
  edgeMemory : List (String × Bool)
  mpsStack : List Bool
deriving DecidableEq, Repr

/-- The interpreter's working state: the persistent maps plus the ephemeral
logic stack (`const stack: boolean[] = []`). -/
structure ScanState where
  io : List (String × Bool)
  data : List (String × Int)
  timers : List (String × Int)
  counters : List (String × Int)
  edgeMemory : List (String × Bool)
  mpsStack : List Bool
  stack : List Bool
deriving DecidableEq, Repr

/-- `stack.pop() ?? false`. -/
def popD : List Bool → Bool × List Bool
  | [] => (false, [])
  | t :: rest => (t, rest)

/-- `stack[stack.length - 1] ?? false` (peek, no removal). -/
def peekD (s : List Bool) : Bool := s.headD false

/-- `inst.args?.[1] || '0'` (comparator second operand). -/
def arg1OrZeroStr (inst : Instruction) : String :=
  match inst.args with
  | some l =>
    match l.get? 1 with
    | some s => if s == "" then "0" else s
    | none => "0"
  | none => "0"

/-- `inst.args?.[1] ? parseOperand(inst.args[1], data) : 0`
(timer/counter preset resolution; an absent or empty token is falsy). -/
def presetOperand (inst : Instruction) (data : List (String × Int)) : Int :=
  match inst.args with
  | some l =>
    match l.get? 1 with
    | some s => if s == "" then 0 else parseOperand s data
    | none => 0
  | none => 0

/-- `MOVP_${inst.id}` edge-memory key. -/
def movpKey (id : Nat) : String := "MOVP_" ++ toString id

/-- `inst.args?.length === 2`. -/
def argsLenTwo (inst : Instruction) : Bool :=
  match inst.args with
  | some l => l.length == 2
  | none => false

/-- One arm of the interpreter's `switch (inst.type)`. -/
def execInst (dt : Int) (st : ScanState) (inst : Instruction) : ScanState :=
  let getBit := fun (k : String) => lookupB st.io k
  match inst.type with
  | .LD => { st with stack := getBit inst.value :: st.stack }
  | .LDI => { st with stack := (!getBit inst.value) :: st.stack }
  | .AND =>
    let (t, rest) := popD st.stack
    { st with stack := (t && getBit inst.value) :: rest }
  | .ANI =>
    let (t, rest) := popD st.stack
    { st with stack := (t && !getBit inst.value) :: rest }
  | .OR =>
    let (t, rest) := popD st.stack
    { st with stack := (t || getBit inst.value) :: rest }
  | .ORI =>
    let (t, rest) := popD st.stack
    { st with stack := (t || !getBit inst.value) :: rest }
  | .ORB =>
    let (a, r1) := popD st.stack
    let (b, r2) := popD r1
    { st with stack := (a || b) :: r2 }
  | .ANB =>
    let (a, r1) := popD st.stack
    let (b, r2) := popD r1
    { st with stack := (a && b) :: r2 }
  | .LD_EQ =>
    let valA := parseOperand inst.value st.data
    let valB := parseOperand (arg1OrZeroStr inst) st.data
    { st with stack := (valA == valB) :: st.stack }
  | .AND_EQ =>
    let (top, rest) := popD st.stack
    let valA := parseOperand inst.value st.data
    let valB := parseOperand (arg1OrZeroStr inst) st.data
    { st with stack := (top && (valA == valB)) :: rest }
  | .OR_EQ =>
    let (top, rest) := popD st.stack
    let valA := parseOperand inst.value st.data
    let valB := parseOperand (arg1OrZeroStr inst) st.data
    { st with stack := (top || (valA == valB)) :: rest }
  | .MPS => { st with mpsStack := peekD st.stack :: st.mpsStack }
  | .MRD => { st with stack := st.mpsStack.headD false :: st.stack }
  | .MPP =>
    match st.mpsStack with
    | v :: rest => { st with stack := v :: st.stack, mpsStack := rest }
    | [] => { st with stack := false :: st.stack }
  | .OUT =>
    let top := peekD st.stack
    let target := inst.value
    if strStartsWith target "T" then
      let presetMs := presetOperand inst st.data * 100
      if top then
        let next := lookupI st.timers target + dt
        { st with timers := setI st.timers target next,
                  io := setB st.io target (decide (next ≥ presetMs)) }
      else
        { st with timers := setI st.timers target 0,
                  io := setB st.io target false }
    else if strStartsWith target "C" then
      let preset := presetOperand inst st.data
      let prevIn := lookupB st.edgeMemory target
      let st' := { st with edgeMemory := setB st.edgeMemory target top }
      if !prevIn && top then
        let next := lookupI st.counters target + 1
        let st'' := { st' with counters := setI st'.counters target next }
        if next ≥ preset then { st'' with io := setB st''.io target true }
        else st''
      else st'
    else { st with io := setB st.io target top }
  | .SET =>
    let top := peekD st.stack
    if top then { st with io := setB st.io inst.value true } else st
  | .RST =>
    let top := peekD st.stack
    if top then
      let t := inst.value
      if strStartsWith t "T" then
        { st with timers := setI st.timers t 0, io := setB st.io t false }
      else if strStartsWith t "C" then
        { st with counters := setI st.counters t 0,
                  io := setB st.io t false,
                  edgeMemory := setB st.edgeMemory t false }
      else if strStartsWith t "D" then
        { st with data := setI st.data t 0 }
      else { st with io := setB st.io t false }
    else st
  | .MOV =>
    let top := peekD st.stack
    if top && argsLenTwo inst then
      let l := inst.args.getD []
      { st with data := setI st.data (l.getD 1 "") (parseOperand (l.getD 0 "") st.data) }
    else st
  | .MOVP =>
    let top := peekD st.stack
    let edgeKey := movpKey inst.id
    let prev := lookupB st.edgeMemory edgeKey
    let st' := { st with edgeMemory := setB st.edgeMemory edgeKey top }
    if !prev && top && argsLenTwo inst then
      let l := inst.args.getD []
      { st' with data := setI st'.data (l.getD 1 "") (parseOperand (l.getD 0 "") st'.data) }
    else st'

/-- `runScanCycle(instructions, prevState, dt)`: copy the persistent maps,
reset the logic stack, execute the instruction list once left to right,
and return the new persistent state. -/
def runScanCycle (instructions : List Instruction)
    (prevState : SimulationState) (dt : Int) : SimulationState :=
  let final := instructions.foldl (execInst dt)
    { io := prevState.io, data := prevState.data, timers := prevState.timers,
      counters := prevState.counters, edgeMemory := prevState.edgeMemory,
      mpsStack := prevState.mpsStack, stack := [] }
  { io := final.io, data := final.data, timers := final.timers,
    counters := final.counters, edgeMemory := final.edgeMemory,
    mpsStack := final.mpsStack }

/-! ## Helper lemmas and test fixtures for the scan interpreter -/

theorem lookupB_cons (a : String) (b : Bool) (m : List (String × Bool)) (k : String) :
    lookupB ((a, b) :: m) k = if a == k then b else lookupB m k := by
  simp only [lookupB, List.find?]
  by_cases h : a == k <;> simp [h]

theorem lookupI_cons (a : String) (b : Int) (m : List (String × Int)) (k : String) :
    lookupI ((a, b) :: m) k = if a == k then b else lookupI m k := by
  simp only [lookupI, List.find?]
  by_cases h : a == k <;> simp [h]

/-- The persistent part of the interpreter's working state (what
`runScanCycle` returns). -/
def persist (st : ScanState) : SimulationState :=
  { io := st.io, data := st.data, timers := st.timers, counters := st.counters,
    edgeMemory := st.edgeMemory, mpsStack := st.mpsStack }

/-- A simulation state holding only the given io bits (all other maps empty). -/
def mkIoState (io : List (String × Bool)) : SimulationState :=
  { io := io, data := [], timers := [], counters := [], edgeMemory := [],
    mpsStack := [] }

/-- Iterate `runScanCycle` on a fixed program with a fixed `dt`. -/
def iterStep (prog : List Instruction) (dt : Int) :
    Nat → SimulationState → SimulationState
  | 0, s => s
  | n + 1, s => iterStep prog dt n (runScanCycle prog s dt)

/-- Run one scan per entry of `inputs`, forcing the bit `X0` to the entry's
value before each scan (the external toggling of the rung input). -/
def applyPulses (prog : List Instruction) (s : SimulationState) :
    List Bool → SimulationState
  | [] => s
  | b :: rest =>
    applyPulses prog (runScanCycle prog { s with io := setB s.io "X0" b } 0) rest

def ldX0 : Instruction := { id := 0, type := .LD, value := "X0", args := some ["X0"] }
def orY0 : Instruction := { id := 1, type := .OR, value := "Y0", args := some ["Y0"] }
def aniX1 : Instruction := { id := 2, type := .ANI, value := "X1", args := some ["X1"] }
def outY0 : Instruction := { id := 3, type := .OUT, value := "Y0", args := some ["Y0"] }
def outT0K10 : Instruction :=
  { id := 1, type := .OUT, value := "T0", args := some ["T0", "K10"] }
def outC0K3 : Instruction :=
  { id := 1, type := .OUT, value := "C0", args := some ["C0", "K3"] }

/-- `LD X0, OR Y0, ANI X1, OUT Y0` — the self-holding circuit. -/
def selfHoldProg : List Instruction := [ldX0, orY0, aniX1, outY0]

/-- `LD X0, OUT T0 K10` — timer rung with preset 10 (= 1000 ms). -/
def timerProg : List Instruction := [ldX0, outT0K10]

/-- `LD X0, OUT C0 K3` — counter rung with preset 3. -/
def counterProg : List Instruction := [ldX0, outC0K3]

/-! ## Claims about the scan interpreter -/

/-- C1: on the self-holding circuit `[LD X0, OR Y0, ANI X1, OUT Y0]` one
`step` (a) turns `Y0` on from `{X0:true, X1:false, Y0:false}`, (b) keeps
`Y0` on from `{X0:false, X1:false, Y0:true}` (self-hold), and (c) for every
starting `X0`/`Y0`, if `X1` is true the scan ends with `Y0` false (reset
dominance). -/
theorem selfHold_step_correct :
    lookupB (runScanCycle selfHoldProg
      (mkIoState [("X0", true), ("X1", false), ("Y0", false)]) 0).io "Y0" = true ∧
    lookupB (runScanCycle selfHoldProg
      (mkIoState [("X0", false), ("X1", false), ("Y0", true)]) 0).io "Y0" = true ∧
    (∀ b1 b2 : Bool, lookupB (runScanCycle selfHoldProg
      (mkIoState [("X0", b1), ("X1", true), ("Y0", b2)]) 0).io "Y0" = false) := by
  refine ⟨by decide, by decide, ?_⟩
  decide

/-- C2: with the rung input held true, stepping `[LD X0, OUT T0 K10]` with
`dt = 200` leaves `T0` false on the first four calls and true from the
fifth (1000 ms = 10 × 100 ms); and on any call — whatever the carried
state — the timer accumulates `dt` while the input reads true and is reset
to 0 with the bit cleared in the same call while it reads false. -/
theorem timer_preset_reached_and_reset :
    (lookupB (iterStep timerProg 200 1 (mkIoState [("X0", true)])).io "T0" = false ∧
     lookupB (iterStep timerProg 200 2 (mkIoState [("X0", true)])).io "T0" = false ∧
     lookupB (iterStep timerProg 200 3 (mkIoState [("X0", true)])).io "T0" = false ∧
     lookupB (iterStep timerProg 200 4 (mkIoState [("X0", true)])).io "T0" = false ∧
     lookupB (iterStep timerProg 200 5 (mkIoState [("X0", true)])).io "T0" = true) ∧
    (∀ (s : SimulationState) (dt : Int),
      lookupI (runScanCycle timerProg s dt).timers "T0" =
        (if lookupB s.io "X0" then lookupI s.timers "T0" + dt else 0) ∧
      lookupB (runScanCycle timerProg s dt).io "T0" =
        (if lookupB s.io "X0"
         then decide (lookupI s.timers "T0" + dt ≥ 1000) else false)) := by
  refine ⟨⟨by decide, by decide, by decide, by decide, by decide⟩, ?_⟩
  intro s dt
  simp only [runScanCycle, timerProg, List.foldl, execInst,
    show ldX0.type = .LD from rfl, show ldX0.value = "X0" from rfl,
    show outT0K10.type = .OUT from rfl, show outT0K10.value = "T0" from rfl,
    show (fun d => presetOperand outT0K10 d = 10) s.data from rfl,
    show strStartsWith "T0" "T" = true from rfl]
  cases hx : lookupB s.io "X0" <;>
    simp only [hx, peekD, popD, setI, setB] <;> norm_num <;>
    simp [lookupB_cons, lookupI_cons]

/-- C3: on `[LD X0, OUT C0 K3]` the counter increments exactly on each
false→true transition of the rung value (tracked in `edgeMemory[C0]`), the
bit comes on only once the count reaches 3, consecutive true scans without
an intervening false count once, and a false input never clears the bit.
The second conjunct gives the single-scan characterization for an
arbitrary carried state; the first runs the pulse train
T,T,F,T,F,T,F concretely. -/
theorem counter_edge_counting :
    (lookupI (applyPulses counterProg (mkIoState []) [true, true]).counters "C0" = 1 ∧
     lookupB (applyPulses counterProg (mkIoState []) [true, true]).io "C0" = false ∧
     lookupI (applyPulses counterProg (mkIoState [])
        [true, true, false, true]).counters "C0" = 2 ∧
     lookupB (applyPulses counterProg (mkIoState [])
        [true, true, false, true]).io "C0" = false ∧
     lookupI (applyPulses counterProg (mkIoState [])
        [true, true, false, true, false, true]).counters "C0" = 3 ∧
     lookupB (applyPulses counterProg (mkIoState [])
        [true, true, false, true, false, true]).io "C0" = true ∧
     lookupB (applyPulses counterProg (mkIoState [])
        [true, true, false, true, false, true, false]).io "C0" = true) ∧
    (∀ (s : SimulationState) (dt : Int),
      lookupI (runScanCycle counterProg s dt).counters "C0" =
        (if !lookupB s.edgeMemory "C0" && lookupB s.io "X0"
         then lookupI s.counters "C0" + 1 else lookupI s.counters "C0") ∧
      lookupB (runScanCycle counterProg s dt).edgeMemory "C0" = lookupB s.io "X0" ∧
      lookupB (runScanCycle counterProg s dt).io "C0" =
        (if (!lookupB s.edgeMemory "C0" && lookupB s.io "X0")
            && decide (lookupI s.counters "C0" + 1 ≥ 3)
         then true else lookupB s.io "C0")) := by
  refine ⟨⟨by decide, by decide, by decide, by decide, by decide, by decide, by decide⟩, ?_⟩
  intro s dt
  simp only [runScanCycle, counterProg, List.foldl, execInst,
    show ldX0.type = .LD from rfl, show ldX0.value = "X0" from rfl,
    show outC0K3.type = .OUT from rfl, show outC0K3.value = "C0" from rfl,
    show (fun d => presetOperand outC0K3 d = 3) s.data from rfl,
    show strStartsWith "C0" "T" = false from rfl,
    show strStartsWith "C0" "C" = true from rfl]
  cases hx : lookupB s.io "X0" <;> cases he : lookupB s.edgeMemory "C0" <;>
    simp only [hx, he, peekD, popD, setI, setB] <;>
    norm_num <;>
    first
      | simp [lookupB_cons, lookupI_cons]
      | (split <;> rename_i hif <;> simp [lookupB_cons, lookupI_cons, hif])

/-! ## Claims about interpreter failure semantics and operand dispatch -/

def outInst (id : Nat) (v : String) (args : Option (List String)) : Instruction :=
  { id := id, type := .OUT, value := v, args := args }

def rstInst (id : Nat) (v : String) (args : Option (List String)) : Instruction :=
  { id := id, type := .RST, value := v, args := args }

/-- C8: the interpreter never faults. (a) For every instruction, executing
against an empty logic stack produces the same persistent state as executing
with a single `false` on the stack: every pop and every peek of the empty
stack is treated as `false`. (b) `MRD`/`MPP` against an empty `mpsStack`
push `false` onto the logic stack. (c) An operand token that is not a `K`
constant, not numeric, and not bound in the data map resolves to 0. -/
theorem scan_empty_stack_defaults :
    (∀ (st : ScanState) (inst : Instruction) (dt : Int), st.stack = [] →
      persist (execInst dt st inst) =
        persist (execInst dt { st with stack := [false] } inst)) ∧
    (∀ (st : ScanState) (id : Nat) (v : String) (args : Option (List String)) (dt : Int),
      st.mpsStack = [] →
      (execInst dt st { id := id, type := .MRD, value := v, args := args }).stack
          = false :: st.stack ∧
      (execInst dt st { id := id, type := .MPP, value := v, args := args }).stack
          = false :: st.stack) ∧
    (∀ (op : String) (dataState : List (String × Int)),
      strStartsWith op "K" = false → isNumericLit op = false →
      dataState.find? (fun p => p.1 == op) = none →
      parseOperand op dataState = 0) := by
  refine ⟨?_, ?_, ?_⟩
  · intro st inst dt hs
    obtain ⟨sio, sda, sti, sco, sem, smp, sstk⟩ := st
    dsimp only at hs
    subst hs
    obtain ⟨id, t, v, args⟩ := inst
    cases t <;>
      first
        | rfl
        | (simp only [execInst, peekD, List.headD, Bool.and_false];
           split <;> (try split) <;> rfl)
  · intro st id v args dt hm
    obtain ⟨sio, sda, sti, sco, sem, smp, sstk⟩ := st
    dsimp only at hm
    subst hm
    exact ⟨rfl, rfl⟩
  · intro op dataState hk hn hfind
    by_cases he : op == ""
    · simp [parseOperand, he]
    · simp [parseOperand, lookupI, he, hk, hn, hfind]

/-- Witness for C8 at concrete inputs. -/
theorem scan_empty_stack_defaults_witness :
    persist (execInst 0 ⟨[("X0", true)], [], [], [], [], [], []⟩
        { id := 0, type := .AND, value := "X0", args := none }) =
      persist (execInst 0 ⟨[("X0", true)], [], [], [], [], [], [false]⟩
        { id := 0, type := .AND, value := "X0", args := none }) ∧
    (execInst 0 ⟨[], [], [], [], [], [], []⟩
        { id := 0, type := .MRD, value := "", args := none }).stack = [false] ∧
    parseOperand "M5" [] = 0 :=
  ⟨scan_empty_stack_defaults.1 ⟨[("X0", true)], [], [], [], [], [], []⟩
      { id := 0, type := .AND, value := "X0", args := none } 0 rfl,
   (scan_empty_stack_defaults.2.1 ⟨[], [], [], [], [], [], []⟩ 0 "" none 0 rfl).1,
   scan_empty_stack_defaults.2.2 "M5" [] (by decide) (by decide) rfl⟩

/-- C10: `OUT` and `RST` pick their timer / counter / data semantics solely
from the leading character of the operand name. For `OUT`: a `T`-prefixed
target always runs the timer branch, a `C`-prefixed target always runs the
counter branch, and only other names are driven as a plain coil
(`io[v] := top`) — so a plain bit named `T...`/`C...` can never be driven as
an ordinary coil. For `RST` (when the rung reads true): `T` zeroes the
timer and bit, `C` zeroes the counter, bit and edge memory, `D` zeroes the
data register, anything else just clears the bit. -/
theorem out_rst_prefix_dispatch :
    ∀ (st : ScanState) (id : Nat) (v : String) (args : Option (List String)) (dt : Int),
    (strStartsWith v "T" = true →
      execInst dt st (outInst id v args) =
        (if peekD st.stack then
          { st with timers := setI st.timers v (lookupI st.timers v + dt),
                    io := setB st.io v (decide (lookupI st.timers v + dt ≥
                      presetOperand (outInst id v args) st.data * 100)) }
         else { st with timers := setI st.timers v 0, io := setB st.io v false })) ∧
    (strStartsWith v "T" = false → strStartsWith v "C" = true →
      execInst dt st (outInst id v args) =
        (if !lookupB st.edgeMemory v && peekD st.stack then
          (if lookupI st.counters v + 1 ≥ presetOperand (outInst id v args) st.data then
            { st with edgeMemory := setB st.edgeMemory v (peekD st.stack),
                      counters := setI st.counters v (lookupI st.counters v + 1),
                      io := setB st.io v true }
           else
            { st with edgeMemory := setB st.edgeMemory v (peekD st.stack),
                      counters := setI st.counters v (lookupI st.counters v + 1) })
         else { st with edgeMemory := setB st.edgeMemory v (peekD st.stack) })) ∧
    (strStartsWith v "T" = false → strStartsWith v "C" = false →
      execInst dt st (outInst id v args) =
        { st with io := setB st.io v (peekD st.stack) }) ∧
    (peekD st.stack = true → strStartsWith v "T" = true →
      execInst dt st (rstInst id v args) =
        { st with timers := setI st.timers v 0, io := setB st.io v false }) ∧
    (peekD st.stack = true → strStartsWith v "T" = false → strStartsWith v "C" = true →
      execInst dt st (rstInst id v args) =
        { st with counters := setI st.counters v 0, io := setB st.io v false,
                  edgeMemory := setB st.edgeMemory v false }) ∧
    (peekD st.stack = true → strStartsWith v "T" = false → strStartsWith v "C" = false →
        strStartsWith v "D" = true →
      execInst dt st (rstInst id v args) = { st with data := setI st.data v 0 }) ∧
    (peekD st.stack = true → strStartsWith v "T" = false → strStartsWith v "C" = false →
        strStartsWith v "D" = false →
      execInst dt st (rstInst id v args) = { st with io := setB st.io v false }) := by
  intro st id v args dt
  refine ⟨?_, ?_, ?_, ?_, ?_, ?_, ?_⟩ <;>
    intro h1 <;> (try intro h2) <;> (try intro h3) <;> (try intro h4) <;>
    simp only [execInst, outInst, rstInst] <;> simp_all

/-- Witness for C10: a bit named `TANK` is dispatched to the timer branch
of `OUT`, and `RST MOTOR` clears the plain bit. -/
theorem out_rst_prefix_dispatch_witness :
    execInst 7 ⟨[], [], [], [], [], [], [true]⟩ (outInst 0 "TANK" none) =
      (if peekD [true] then
        { io := setB [] "TANK" (decide (lookupI [] "TANK" + 7 ≥
              presetOperand (outInst 0 "TANK" none) [] * 100)),
          data := [], timers := setI [] "TANK" (lookupI [] "TANK" + 7),
          counters := [], edgeMemory := [], mpsStack := [], stack := [true] }
       else
        { io := setB [] "TANK" false, data := [], timers := setI [] "TANK" 0,
          counters := [], edgeMemory := [], mpsStack := [], stack := [true] }) ∧
    execInst 0 ⟨[("MOTOR", true)], [], [], [], [], [], [true]⟩ (rstInst 1 "MOTOR" none) =
      { io := setB [("MOTOR", true)] "MOTOR" false, data := [], timers := [],
        counters := [], edgeMemory := [], mpsStack := [], stack := [true] } :=
  ⟨(out_rst_prefix_dispatch ⟨[], [], [], [], [], [], [true]⟩ 0 "TANK" none 7).1 (by decide),
   (out_rst_prefix_dispatch ⟨[("MOTOR", true)], [], [], [], [], [], [true]⟩
      1 "MOTOR" none 0).2.2.2.2.2.2 (by decide) (by decide) (by decide) (by decide)⟩

/-! ## Layout engine (logic/parser.ts) -/

structure Connections where
  up : Bool
  down : Bool
  left : Bool
  right : Bool
deriving DecidableEq, Repr

structure GridCell where
  x : Int
  y : Int
  instruction : Option Instruction
  connections : Connections
  sourceIndex : Option Nat
deriving DecidableEq, Repr

structure BlockContext where
  startX : Int
  endX : Int
  /-- JS `Set<number>` in insertion order, kept duplicate-free. -/
  activeRows : List Int
  minY : Int
deriving DecidableEq, Repr

structure MpsContext where
  x : Int
  y : Int
deriving DecidableEq, Repr

structure LayoutState where
  cells : List GridCell
  maxYUsed : Int
  blockStack : List BlockContext
  mpsAnchors : List MpsContext
  currentBlock : BlockContext
deriving DecidableEq, Repr

/-- `Set.add` (no-op if present, else appended in insertion order). -/
def setInsert (l : List Int) (y : Int) : List Int :=
  if l.contains y then l else l ++ [y]

/-- `new Set([...a, ...b])`: iterate `a` then `b`, keeping first occurrences. -/
def unionRows (a b : List Int) : List Int := b.foldl setInsert a

/-- `Array.from(set).sort((a,b) => a-b)` — numeric ascending sort
(insertion sort; the set holds distinct elements so stability is moot). -/
def insertSorted (x : Int) : List Int → List Int
  | [] => [x]
  | y :: ys => if x ≤ y then x :: y :: ys else y :: insertSorted x ys

def sortInts (l : List Int) : List Int := l.foldr insertSorted []

/-- `Math.max(...xs)` for a list known to be nonempty (`dflt` is returned
for `[]`, matching the guarded uses in the source). -/
def intMaxList (xs : List Int) (dflt : Int) : Int :=
  match xs with
  | [] => dflt
  | h :: t => t.foldl max h

/-- Mutation of the cell returned by `cells.find(...)`: rewrite the first
matching element in place, no-op when there is none. -/
def updateFirst (p : GridCell → Bool) (f : GridCell → GridCell) :
    List GridCell → List GridCell
  | [] => []
  | c :: rest => if p c then f c :: rest else c :: updateFirst p f rest

def emptyCellAt (x y : Int) : GridCell :=
  { x := x, y := y, instruction := none,
    connections := { up := false, down := false, left := false, right := false },
    sourceIndex := none }

/-- One row of `fillHorizontalWires`: pad the row with `{left,right}` wire
cells up to (excluding) `targetX`, then set `right` on the cell at
`targetX - 1` when present. -/
def fillRow (startX targetX rowY : Int) (cells : List GridCell) : List GridCell :=
  let rowCells := cells.filter (fun c => c.y == rowY)
  let maxX := if rowCells.isEmpty then startX - 1 else intMaxList (rowCells.map (·.x)) 0
  let wires := (List.range (targetX - (maxX + 1)).toNat).map (fun i =>
    { x := maxX + 1 + (i : Int), y := rowY, instruction := none,
      connections := { up := false, down := false, left := true, right := true },
      sourceIndex := none : GridCell })
  updateFirst (fun c => c.x == targetX - 1 && c.y == rowY)
    (fun c => { c with connections := { c.connections with right := true } })
    (cells ++ wires)

def fillHorizontalWires (cells : List GridCell) (block : BlockContext)
    (targetX : Int) : List GridCell :=
  block.activeRows.foldl (fun cs rowY => fillRow block.startX targetX rowY cs) cells

def getAllRowsInBlock (block : BlockContext) (cells : List GridCell) : List Int :=
  cells.foldl (fun acc c => if c.y ≥ block.minY then setInsert acc c.y else acc) []

/-- Connection edits applied at row `y` of the vertical bus from `fromY`
to `toY`. -/
def busConnAt (fromY toY y : Int) (c : GridCell) : GridCell :=
  if y == fromY then { c with connections := { c.connections with down := true } }
  else if y == toY then
    { c with connections := { c.connections with up := true, right := true } }
  else { c with connections := { c.connections with up := true, down := true } }

def drawVerticalBus (cells : List GridCell) (x fromY toY : Int) : List GridCell :=
  (List.range (toY - fromY + 1).toNat).foldl
    (fun cs i =>
      let y := fromY + (i : Int)
      if cs.any (fun c => c.x == x && c.y == y) then
        updateFirst (fun c => c.x == x && c.y == y) (busConnAt fromY toY y) cs
      else cs ++ [busConnAt fromY toY y (emptyCellAt x y)])
    cells

def isStartT (t : InstrType) : Bool := t == .LD || t == .LDI || t == .LD_EQ

def isParallelT (t : InstrType) : Bool := t == .OR || t == .ORI || t == .OR_EQ

def isSeriesT (t : InstrType) : Bool :=
  t == .AND || t == .ANI || t == .AND_EQ ||
  t == .OUT || t == .MOV || t == .RST ||
  t == .MOVP || t == .SET

def isBlockLogicT (t : InstrType) : Bool := t == .ORB || t == .ANB

def isStackOpT (t : InstrType) : Bool := t == .MPS || t == .MRD || t == .MPP

/-- The body of the `instructions.forEach((inst, index) => ...)` pass of
`parseLadderLogic`. Block-merge instructions (`ORB`/`ANB`) return before
the placement logic; everything else falls through and emits a cell. -/
def layoutStep (st : LayoutState) (p : Nat × Instruction) : LayoutState :=
  let index := p.1
  let inst := p.2
  if isBlockLogicT inst.type then
    match st.blockStack with
    | [] => st
    | prevBlock :: restStack =>
      if inst.type == .ORB then
        let commonEndX := max prevBlock.endX st.currentBlock.endX
        let cells1 := fillHorizontalWires st.cells prevBlock commonEndX
        let cells2 := fillHorizontalWires cells1 st.currentBlock commonEndX
        let combinedActive := unionRows prevBlock.activeRows st.currentBlock.activeRows
        { st with cells := cells2, blockStack := restStack,
                  currentBlock :=
                    { startX := prevBlock.startX, endX := commonEndX,
                      activeRows := combinedActive,
                      minY := min prevBlock.minY st.currentBlock.minY } }
      else
        let offset := prevBlock.endX
        let blockRows := getAllRowsInBlock st.currentBlock st.cells
        let cells' := st.cells.map (fun cell =>
          if blockRows.contains cell.y && cell.y ≥ st.currentBlock.minY then
            { cell with x := cell.x + offset }
          else cell)
        { st with cells := cells', blockStack := restStack,
                  currentBlock :=
                    { startX := prevBlock.startX,
                      endX := prevBlock.endX + st.currentBlock.endX,
                      activeRows := st.currentBlock.activeRows,
                      minY := prevBlock.minY } }
  else
    -- phases 1 (new blocks), 2 (parallel branches), 4 (series convergence)
    let st1 : LayoutState :=
      if isStartT inst.type then
        if index == 0 then
          { st with maxYUsed := 0,
                    currentBlock :=
                      { startX := 0, endX := 0, activeRows := [0], minY := 0 },
                    blockStack := [], mpsAnchors := [] }
        else
          let newY := st.maxYUsed + 1
          { st with blockStack := st.currentBlock :: st.blockStack,
                    maxYUsed := newY,
                    currentBlock :=
                      { startX := 0, endX := 0, activeRows := [newY], minY := newY } }
      else if isParallelT inst.type then
        let branchSourceRow := st.currentBlock.minY
        let newY := st.maxYUsed + 1
        let cells' :=
          if st.currentBlock.startX > 0 then
            let prevX := st.currentBlock.startX - 1
            let cells1 := updateFirst
              (fun c => c.x == prevX && c.y == branchSourceRow)
              (fun c => { c with connections := { c.connections with down := true } })
              st.cells
            if cells1.any (fun c => c.x == prevX && c.y == newY) then cells1
            else cells1 ++
              [{ x := prevX, y := newY, instruction := none,
                 connections := { up := true, right := true, left := false, down := false },
                 sourceIndex := none }]
          else st.cells
        { st with cells := cells', maxYUsed := newY,
                  currentBlock :=
                    { st.currentBlock with
                        activeRows := setInsert st.currentBlock.activeRows newY } }
      else if isSeriesT inst.type then
        if st.currentBlock.activeRows.length > 1 then
          let rows := sortInts st.currentBlock.activeRows
          let minRow := rows.headD 0
          let maxRow := rows.getLastD 0
          let rightMostX := st.currentBlock.endX - 1
          let cells' := st.cells.map (fun cell =>
            if cell.x == rightMostX && st.currentBlock.activeRows.contains cell.y then
              { cell with connections :=
                  { cell.connections with
                      right := true,
                      down := if cell.y < maxRow then true else cell.connections.down,
                      up := if cell.y > minRow then true else cell.connections.up } }
            else cell)
          { st with cells := cells',
                    currentBlock :=
                      { st.currentBlock with activeRows := [st.currentBlock.minY] } }
        else st
      else st
    -- placement logic
    let defX := st1.currentBlock.endX
    let defY := st1.currentBlock.minY
    let placed : Int × Int × LayoutState :=
      if isStackOpT inst.type then
        if inst.type == .MPS then
          (defX, defY, { st1 with mpsAnchors := ⟨defX, defY⟩ :: st1.mpsAnchors })
        else if inst.type == .MRD then
          match st1.mpsAnchors with
          | [] => (defX, defY, st1)
          | point :: _ =>
            let newY := st1.maxYUsed + 1
            let cells' := drawVerticalBus st1.cells point.x point.y newY
            (point.x, newY,
             { st1 with cells := cells', maxYUsed := newY,
                        currentBlock :=
                          { st1.currentBlock with
                              activeRows := setInsert st1.currentBlock.activeRows newY } })
        else
          match st1.mpsAnchors with
          | [] => (defX, defY, st1)
          | point :: restAnchors =>
            let newY := st1.maxYUsed + 1
            let cells' := drawVerticalBus st1.cells point.x point.y newY
            (point.x, newY,
             { st1 with cells := cells', maxYUsed := newY,
                        mpsAnchors := restAnchors,
                        currentBlock :=
                          { st1.currentBlock with
                              activeRows := setInsert st1.currentBlock.activeRows newY } })
      else if isParallelT inst.type then
        let rows := sortInts st1.currentBlock.activeRows
        (st1.currentBlock.startX, rows.getLastD 0, st1)
      else if isSeriesT inst.type then
        (st1.currentBlock.endX, st1.currentBlock.minY, st1)
      else (defX, defY, st1)
    let placeX := placed.1
    let placeY := placed.2.1
    let st2 := placed.2.2
    let isVerticalBranch := inst.type == .MRD || inst.type == .MPP
    let newCell : GridCell :=
      { x := placeX, y := placeY, instruction := some inst,
        connections :=
          { left := if isVerticalBranch then false else decide (placeX > 0),
            right := inst.type != .OUT && inst.type != .MOV && inst.type != .RST &&
                     inst.type != .SET && inst.type != .MOVP,
            up := false, down := false },
        sourceIndex := some index }
    let st3 := { st2 with cells := st2.cells ++ [newCell] }
    -- update block cursor
    if isParallelT inst.type then
      { st3 with currentBlock :=
          { st3.currentBlock with endX := max st3.currentBlock.endX (placeX + 1) } }
    else if isStackOpT inst.type then
      if inst.type == .MRD || inst.type == .MPP then
        { st3 with currentBlock :=
            { st3.currentBlock with endX := placeX + 1, minY := placeY } }
      else
        { st3 with currentBlock := { st3.currentBlock with endX := placeX + 1 } }
    else
      { st3 with currentBlock := { st3.currentBlock with endX := placeX + 1 } }

def initLayout : LayoutState :=
  { cells := [], maxYUsed := 0, blockStack := [], mpsAnchors := [],
    currentBlock := { startX := 0, endX := 0, activeRows := [0], minY := 0 } }

/-- The instruction pass of `parseLadderLogic`: the emitted sparse cell list
plus the final `maxYUsed`. -/
def layoutPass (instructions : List Instruction) : LayoutState :=
  instructions.enum.foldl layoutStep initLayout

/-- `Math.max(...cells.map(c => c.x))` (0 for the empty list, which the
caller rules out). -/
def gridMaxXOf : List GridCell → Int
  | [] => 0
  | c0 :: rest => (rest.map (·.x)).foldl max c0.x

/-- `Math.max(maxYUsed, ...cells.map(c => c.y))`. -/
def gridMaxYOf (cells : List GridCell) (maxYUsed : Int) : Int :=
  (cells.map (·.y)).foldl max maxYUsed

/-- The rectangle entry at (x, y): the first emitted cell there, else a
synthesized empty placeholder. -/
def gridEntry (cells : List GridCell) (x y : Nat) : GridCell :=
  match cells.find? (fun c => c.x == (x : Int) && c.y == (y : Int)) with
  | some c => c
  | none => emptyCellAt (x : Int) (y : Int)

/-- Final grid generation: bounding box over the emitted cells, then a
complete rectangle row by row, synthesizing empty placeholder cells. -/
def gridify (cells : List GridCell) (maxYUsed : Int) : List (List GridCell) :=
  match cells with
  | [] => []
  | _ :: _ =>
    (List.range (gridMaxYOf cells maxYUsed + 1).toNat).map (fun y =>
      (List.range (gridMaxXOf cells + 1).toNat).map (fun x => gridEntry cells x y))

/-- `parseLadderLogic(instructions)`: linear IL to 2D grid. -/
def parseLadderLogic (instructions : List Instruction) : List (List GridCell) :=
  gridify (layoutPass instructions).cells (layoutPass instructions).maxYUsed

/-! ## Claims about the layout engine -/

def gridCellAt (g : List (List GridCell)) (x y : Nat) : GridCell :=
  (g.getD y []).getD x (emptyCellAt 0 0)

def ldX1 : Instruction := { id := 10, type := .LD, value := "X1", args := some ["X1"] }
def andX2 : Instruction := { id := 11, type := .AND, value := "X2", args := some ["X2"] }
def orbI : Instruction := { id := 12, type := .ORB, value := "", args := none }

/-- `LD X0, LD X1, AND X2, ORB, OUT Y0` — the nested-block example. -/
def nestedProg : List Instruction := [ldX0, ldX1, andX2, orbI, outY0]

/-- C4, counterexample: the only cell of `layout([LD X0])` does NOT have all
four connections false — its `right` connection is true (`LD` is not in the
coil class that suppresses the right stub). -/
theorem layout_single_LD_connections_cex :
    ¬ ((gridCellAt (parseLadderLogic [ldX0]) 0 0).connections =
        { up := false, down := false, left := false, right := false }) := by
  decide

/-- C4, amended: `layout([])` is the empty grid, and `layout([LD X0])` is a
1×1 grid whose only cell holds that instruction at (0,0) with
`left = up = down = false` but `right = true`. -/
theorem layout_empty_and_single_LD :
    parseLadderLogic [] = [] ∧
    parseLadderLogic [ldX0] =
      [[{ x := 0, y := 0, instruction := some ldX0,
          connections := { up := false, down := false, left := false, right := true },
          sourceIndex := some 0 }]] := by
  constructor
  · rfl
  · decide

/-- C5: on `[LD X0, LD X1, AND X2, ORB, OUT Y0]` the two `LD` chains occupy
two distinct rows (row 0: `LD X0`; row 1: `LD X1`, `AND X2`); after the
`ORB` merge the rightmost cells of the two rows at the merge column `x = 1`
carry matching verticals (upper `down = true`, lower `up = true`); and no
grid cell holds the `ORB` instruction or a `sourceIndex` pointing at it
(index 3). -/
theorem nested_block_merge_layout :
    (gridCellAt (parseLadderLogic nestedProg) 0 0).sourceIndex = some 0 ∧
    (gridCellAt (parseLadderLogic nestedProg) 0 0).instruction = some ldX0 ∧
    (gridCellAt (parseLadderLogic nestedProg) 0 1).sourceIndex = some 1 ∧
    (gridCellAt (parseLadderLogic nestedProg) 0 1).instruction = some ldX1 ∧
    (gridCellAt (parseLadderLogic nestedProg) 1 1).sourceIndex = some 2 ∧
    (gridCellAt (parseLadderLogic nestedProg) 1 0).connections.down = true ∧
    (gridCellAt (parseLadderLogic nestedProg) 1 1).connections.up = true ∧
    (parseLadderLogic nestedProg).all (fun row => row.all (fun c =>
      !(c.instruction == some orbI) &&
      !((c.instruction.map (fun i => i.type)) == some .ORB) &&
      !(c.sourceIndex == some 3))) = true := by
  refine ⟨rfl, rfl, rfl, rfl, rfl, rfl, rfl, ?_⟩
  decide

/-- The sparse cell list emitted by the layout pass. -/
def layoutCells (instructions : List Instruction) : List GridCell :=
  (layoutPass instructions).cells

/-- C7: `layout` is total (it is a function on all instruction sequences),
yields `[]` exactly when no cell was emitted, and otherwise materializes a
complete rectangle: there are `gridMaxY + 1` rows, every row has
`gridMaxX + 1` cells, and the entry at row `y`, position `x` carries the
coordinates `(x, y)` and is the first emitted cell there — a synthesized
empty connection-less placeholder with `instruction = none` when no cell
was emitted at `(x, y)`. -/
theorem layout_total_rectangular (instructions : List Instruction) :
    ((layoutCells instructions) = [] → parseLadderLogic instructions = []) ∧
    ((layoutCells instructions) ≠ [] →
      (parseLadderLogic instructions).length =
        (gridMaxYOf (layoutCells instructions) (layoutPass instructions).maxYUsed + 1).toNat ∧
      (∀ row ∈ parseLadderLogic instructions,
        row.length = (gridMaxXOf (layoutCells instructions) + 1).toNat) ∧
      (∀ (y x : Nat) (row : List GridCell) (cell : GridCell),
        (parseLadderLogic instructions)[y]? = some row →
        row[x]? = some cell →
        cell.x = (x : Int) ∧ cell.y = (y : Int) ∧
        cell = gridEntry (layoutCells instructions) x y ∧
        ((layoutCells instructions).find? (fun c => c.x == (x : Int) && c.y == (y : Int))
            = none →
          cell = emptyCellAt (x : Int) (y : Int)))) := by
  have hpll : parseLadderLogic instructions =
      gridify (layoutCells instructions) (layoutPass instructions).maxYUsed := rfl
  cases hc : layoutCells instructions with
  | nil =>
    refine ⟨fun _ => ?_, fun hne => absurd rfl hne⟩
    rw [hpll, hc]
    rfl
  | cons c0 rest =>
    refine ⟨fun h => absurd h (by simp), fun _ => ?_⟩
    rw [hpll, hc]
    simp only [gridify]
    refine ⟨by simp, ?_, ?_⟩
    · intro row hrow
      obtain ⟨y, _, rfl⟩ := List.mem_map.mp hrow
      simp
    · intro y x row cell hy hx
      rw [List.getElem?_map] at hy
      obtain ⟨y', hy', hrow⟩ := Option.map_eq_some'.mp hy
      obtain ⟨hylt, hyval⟩ := List.getElem?_eq_some.mp hy'
      rw [List.getElem_range] at hyval
      subst hyval
      subst hrow
      rw [List.getElem?_map] at hx
      obtain ⟨x', hx', hcell⟩ := Option.map_eq_some'.mp hx
      obtain ⟨hxlt, hxval⟩ := List.getElem?_eq_some.mp hx'
      rw [List.getElem_range] at hxval
      subst hxval
      subst hcell
      refine ⟨?_, ?_, rfl, ?_⟩
      · unfold gridEntry
        cases hf : (c0 :: rest).find? (fun c => c.x == (x : Int) && c.y == (y : Int)) with
        | none => simp [hf, emptyCellAt]
        | some c =>
          simp only [hf]
          have hp := List.find?_some hf
          simp only [Bool.and_eq_true, beq_iff_eq] at hp
          exact hp.1
      · unfold gridEntry
        cases hf : (c0 :: rest).find? (fun c => c.x == (x : Int) && c.y == (y : Int)) with
        | none => simp [hf, emptyCellAt]
        | some c =>
          simp only [hf]
          have hp := List.find?_some hf
          simp only [Bool.and_eq_true, beq_iff_eq] at hp
          exact hp.2
      · intro hnone
        unfold gridEntry
        rw [hnone]

/-- Witness for C7: the empty program gives the empty grid, and the
placeholder slot (2,1) of the self-holding circuit's grid carries its own
coordinates and is a synthesized empty cell. -/
theorem layout_total_rectangular_witness :
    parseLadderLogic [] = [] ∧
    (gridCellAt (parseLadderLogic selfHoldProg) 2 1).x = 2 ∧
    (gridCellAt (parseLadderLogic selfHoldProg) 2 1).y = 1 ∧
    gridCellAt (parseLadderLogic selfHoldProg) 2 1 = emptyCellAt 2 1 := by
  have h := (layout_total_rectangular selfHoldProg).2 (by decide) |>.2.2 1 2
    ((parseLadderLogic selfHoldProg).getD 1 [])
    (gridCellAt (parseLadderLogic selfHoldProg) 2 1) rfl rfl
  exact ⟨(layout_total_rectangular []).1 rfl, h.1, h.2.1, h.2.2.2 (by decide)⟩

/-! ## Power flow analyzer (logic/powerFlow.ts) -/

inductive Side
  | inn
  | out
deriving DecidableEq, Repr

/-- A queue entry of the BFS (`{x, y, type}`). -/
structure QueueItem where
  x : Nat
  y : Nat
  side : Side
deriving DecidableEq, Repr

def sideStr : Side → String
  | .inn => "in"
  | .out => "out"

/-- The terminal key `"x,y,type"`. -/
def pathKey (x y : Nat) (side : Side) : String :=
  toString x ++ "," ++ toString y ++ "," ++ sideStr side

/-- `grid[y][x]` (undefined outside the arrays). -/
def cellAt (grid : List (List GridCell)) (y x : Nat) : Option GridCell :=
  (grid[y]?).bind (fun row => row[x]?)

/-- The conduction check at a cell's "in" side. -/
def conducts (cell : GridCell) (ioState : List (String × Bool)) : Bool :=
  match cell.instruction with
  | none => true
  | some inst =>
    let logicState := lookupB ioState inst.value
    match inst.type with
    | .LD | .AND | .OR => logicState == true
    | .LDI | .ANI | .ORI => logicState == false
    | .OUT => true
    | _ => true

/-- Fan-out from a cell's "out" side: right to the next "in", down/up along
the vertical rail staying on the "out" side, each push guarded by bounds
and cell existence as in the source. -/
def outPushes (grid : List (List GridCell)) (rows cols : Nat) (cell : GridCell)
    (x y : Nat) : List QueueItem :=
  (if cell.connections.right then
    (if x + 1 < cols && (cellAt grid y (x + 1)).isSome then
      [{ x := x + 1, y := y, side := .inn }] else [])
   else []) ++
  (if cell.connections.down then
    (if y + 1 < rows && (cellAt grid (y + 1) x).isSome then
      [{ x := x, y := y + 1, side := .out }] else [])
   else []) ++
  (if cell.connections.up then
    (if 0 < y && (cellAt grid (y - 1) x).isSome then
      [{ x := x, y := y - 1, side := .out }] else [])
   else [])

/-- The `while (queue.length > 0)` loop, with an explicit fuel argument
(the loop body is reproduced exactly; the fuel is sized by the caller so
that it never runs out — see `calculatePowerFlow_terminates`). The visited
set and the energized set evolve identically in the source, so one
insertion-ordered list plays both roles. -/
def bfsLoop (grid : List (List GridCell)) (ioState : List (String × Bool))
    (rows cols : Nat) : Nat → List QueueItem → List String → List String
  | 0, _, visited => visited
  | _ + 1, [], visited => visited
  | fuel + 1, q :: rest, visited =>
    let key := pathKey q.x q.y q.side
    if visited.contains key then bfsLoop grid ioState rows cols fuel rest visited
    else
      let visited' := key :: visited
      match cellAt grid q.y q.x with
      | none => bfsLoop grid ioState rows cols fuel rest visited'
      | some cell =>
        match q.side with
        | .inn =>
          if conducts cell ioState then
            bfsLoop grid ioState rows cols fuel
              (rest ++ [{ x := q.x, y := q.y, side := .out }]) visited'
          else bfsLoop grid ioState rows cols fuel rest visited'
        | .out =>
          bfsLoop grid ioState rows cols fuel
            (rest ++ outPushes grid rows cols cell q.x q.y) visited'

/-- The left power rail: the "in" terminal of every existing cell in
column 0. -/
def initQueue (grid : List (List GridCell)) (rows : Nat) : List QueueItem :=
  (List.range rows).filterMap (fun y =>
    if (cellAt grid y 0).isSome then some { x := 0, y := y, side := .inn }
    else none)

/-- Fuel that provably suffices for the BFS to drain its queue (at most
`rows` initial items, at most `2·rows·max 1 cols` distinct terminals, each
unvisited terminal accounting for at most 4 steps). -/
def bfsFuel (rows cols : Nat) : Nat := rows + 8 * rows * max 1 cols

/-- `calculatePowerFlow(grid, ioState)`: the set of energized terminal
keys, as the insertion-ordered list of BFS visits. -/
def calculatePowerFlow (grid : List (List GridCell))
    (ioState : List (String × Bool)) : List String :=
  if grid.isEmpty then []
  else
    let rows := grid.length
    let cols := (grid.headD []).length
    bfsLoop grid ioState rows cols (bfsFuel rows cols) (initQueue grid rows) []

/-- C6: on the grid laid out for the self-holding circuit, with
`Y0 = true, X1 = false` (X0 false) the BFS energizes the "in" terminal
(`"2,0,in"`) of the cell holding `OUT Y0`; recomputing with `X1 = true`
leaves that terminal out of the result. -/
theorem powerflow_selfhold_out_terminal :
    (gridCellAt (parseLadderLogic selfHoldProg) 2 0).instruction = some outY0 ∧
    (calculatePowerFlow (parseLadderLogic selfHoldProg)
        [("X0", false), ("Y0", true), ("X1", false)]).contains "2,0,in" = true ∧
    (calculatePowerFlow (parseLadderLogic selfHoldProg)
        [("X0", false), ("Y0", true), ("X1", true)]).contains "2,0,in" = false := by
  refine ⟨by decide, by decide, by decide⟩

/-! ## Termination of the power-flow BFS (C9)

The queue only ever holds terminals with `x < max 1 cols` and `y < rows`,
and every dequeue either shortens the queue (already-visited key) or moves
a fresh key into the visited set while enqueuing at most three items, so
`|queue| + 4 · |unvisited in-bounds terminals|` strictly decreases. -/

theorem length_filter_mono {α : Type} (l : List α) (p p' : α → Bool)
    (h : ∀ a, p' a = true → p a = true) :
    (l.filter p').length ≤ (l.filter p).length := by
  induction l with
  | nil => simp
  | cons b t ih =>
    by_cases hb' : p' b = true
    · have hb := h b hb'
      simp only [List.filter_cons, hb', hb, if_true, List.length_cons]
      omega
    · by_cases hb : p b = true <;>
        simp only [List.filter_cons, hb', hb, if_true, if_false,
          Bool.false_eq_true, List.length_cons] <;>
        omega

theorem length_filter_lt {α : Type} (l : List α) (p p' : α → Bool)
    (h : ∀ a, p' a = true → p a = true) (a0 : α) (ha : a0 ∈ l)
    (hp : p a0 = true) (hp' : p' a0 = false) :
    (l.filter p').length < (l.filter p).length := by
  induction l with
  | nil => cases ha
  | cons b t ih =>
    rcases List.mem_cons.mp ha with rfl | hmem
    · simp only [List.filter_cons, hp, hp', if_true, if_false,
        Bool.false_eq_true, List.length_cons]
      have := length_filter_mono t p p' h
      omega
    · have hlt := ih hmem
      by_cases hb' : p' b = true
      · have hb := h b hb'
        simp only [List.filter_cons, hb', hb, if_true, List.length_cons]
        omega
      · by_cases hb : p b = true <;>
          simp only [List.filter_cons, hb', hb, if_true, if_false,
            Bool.false_eq_true, List.length_cons] <;>
          omega

/-- Every terminal the BFS can ever enqueue lives in this finite list. -/
def allTerminals (rows cols' : Nat) : List QueueItem :=
  (List.range rows).flatMap (fun y => (List.range cols').flatMap (fun x =>
    [{ x := x, y := y, side := .inn }, { x := x, y := y, side := .out }]))

theorem mem_allTerminals (rows cols' : Nat) (i : QueueItem)
    (hx : i.x < cols') (hy : i.y < rows) : i ∈ allTerminals rows cols' := by
  obtain ⟨x, y, s⟩ := i
  simp only [allTerminals, List.mem_flatMap, List.mem_range]
  exact ⟨y, hy, x, hx, by cases s <;> simp⟩

/-- Number of in-bounds terminals whose key is not yet visited. -/
def unseenCount (rows cols' : Nat) (visited : List String) : Nat :=
  ((allTerminals rows cols').filter
    (fun t => !(visited.contains (pathKey t.x t.y t.side)))).length

theorem unseenCount_cons_le (rows cols' : Nat) (v : List String) (k : String) :
    unseenCount rows cols' (k :: v) ≤ unseenCount rows cols' v := by
  apply length_filter_mono
  intro a hcc
  simp only [List.contains_cons, Bool.not_eq_true', Bool.or_eq_false_iff] at hcc ⊢
  exact hcc.2

theorem unseenCount_cons_lt (rows cols' : Nat) (v : List String) (t : QueueItem)
    (hx : t.x < cols') (hy : t.y < rows)
    (hnew : v.contains (pathKey t.x t.y t.side) = false) :
    unseenCount rows cols' (pathKey t.x t.y t.side :: v) <
      unseenCount rows cols' v := by
  refine length_filter_lt _ _ _ ?_ t (mem_allTerminals rows cols' t hx hy) ?_ ?_
  · intro a hcc
    simp only [List.contains_cons, Bool.not_eq_true', Bool.or_eq_false_iff] at hcc ⊢
    exact hcc.2
  · simpa using hnew
  · simp [List.contains_cons]

theorem bfsLoop_nil (grid : List (List GridCell)) (ioState : List (String × Bool))
    (rows cols : Nat) (v : List String) :
    ∀ f, bfsLoop grid ioState rows cols f [] v = v
  | 0 => rfl
  | _ + 1 => rfl

theorem outPushes_length_le (grid : List (List GridCell)) (rows cols : Nat)
    (cell : GridCell) (x y : Nat) :
    (outPushes grid rows cols cell x y).length ≤ 3 := by
  unfold outPushes
  split_ifs <;> simp

theorem outPushes_bounds (grid : List (List GridCell)) (rows cols cols' : Nat)
    (cell : GridCell) (x y : Nat) (hcc : cols ≤ cols')
    (hx : x < cols') (hy : y < rows) :
    ∀ j ∈ outPushes grid rows cols cell x y, j.x < cols' ∧ j.y < rows := by
  intro j hj
  unfold outPushes at hj
  simp only [List.mem_append] at hj
  rcases hj with (hj | hj) | hj
  · split_ifs at hj with h1 h2
    · simp only [List.mem_singleton] at hj
      subst hj
      simp only [Bool.and_eq_true, decide_eq_true_eq] at h2
      exact ⟨Nat.lt_of_lt_of_le h2.1 hcc, hy⟩
    · exact absurd hj (List.not_mem_nil j)
    · exact absurd hj (List.not_mem_nil j)
  · split_ifs at hj with h1 h2
    · simp only [List.mem_singleton] at hj
      subst hj
      simp only [Bool.and_eq_true, decide_eq_true_eq] at h2
      exact ⟨hx, h2.1⟩
    · exact absurd hj (List.not_mem_nil j)
    · exact absurd hj (List.not_mem_nil j)
  · split_ifs at hj with h1 h2
    · simp only [List.mem_singleton] at hj
      subst hj
      exact ⟨hx, Nat.lt_of_le_of_lt (Nat.sub_le y 1) hy⟩
    · exact absurd hj (List.not_mem_nil j)
    · exact absurd hj (List.not_mem_nil j)

/-- Dequeues strictly decrease `|queue| + 4·unseen`, so past that measure
the fuel no longer matters: the loop has drained its queue. -/
theorem bfsLoop_stable (grid : List (List GridCell)) (ioState : List (String × Bool))
    (rows cols cols' : Nat) (hcc : cols ≤ cols') :
    ∀ (n : Nat) (q : List QueueItem) (v : List String) (f1 f2 : Nat),
      (∀ i ∈ q, i.x < cols' ∧ i.y < rows) →
      q.length + 4 * unseenCount rows cols' v ≤ n →
      q.length + 4 * unseenCount rows cols' v ≤ f1 →
      q.length + 4 * unseenCount rows cols' v ≤ f2 →
      bfsLoop grid ioState rows cols f1 q v = bfsLoop grid ioState rows cols f2 q v := by
  intro n
  induction n with
  | zero =>
    intro q v f1 f2 hinv hn h1 h2
    have hq : q = [] := List.eq_nil_of_length_eq_zero (by omega)
    subst hq
    rw [bfsLoop_nil, bfsLoop_nil]
  | succ n IH =>
    intro q v f1 f2 hinv hn h1 h2
    cases q with
    | nil => rw [bfsLoop_nil, bfsLoop_nil]
    | cons item rest =>
      simp only [List.length_cons] at hn h1 h2
      have hrestinv : ∀ i ∈ rest, i.x < cols' ∧ i.y < rows :=
        fun i hi => hinv i (List.mem_cons_of_mem _ hi)
      have hitem := hinv item (List.mem_cons_self _ _)
      cases f1 with
      | zero => omega
      | succ f1' =>
      cases f2 with
      | zero => omega
      | succ f2' =>
        obtain ⟨ix, iy, iside⟩ := item
        simp only [bfsLoop]
        by_cases hv : v.contains (pathKey ix iy iside) = true
        · simp only [hv, if_true]
          exact IH rest v f1' f2' hrestinv (by omega) (by omega) (by omega)
        · have hv' : v.contains (pathKey ix iy iside) = false := by
            simpa using hv
          simp only [hv', Bool.false_eq_true, if_false]
          have hdec := unseenCount_cons_lt rows cols' v ⟨ix, iy, iside⟩
            hitem.1 hitem.2 hv'
          dsimp only at hdec
          cases hcell : cellAt grid iy ix with
          | none =>
            simp only [hcell]
            exact IH rest (pathKey ix iy iside :: v) f1' f2' hrestinv
              (by omega) (by omega) (by omega)
          | some cell =>
            simp only [hcell]
            cases iside with
            | inn =>
              by_cases hcond : conducts cell ioState = true
              · simp only [hcond, if_true]
                refine IH (rest ++ [{ x := ix, y := iy, side := .out }])
                  (pathKey ix iy Side.inn :: v) f1' f2' ?_ ?_ ?_ ?_
                · intro i hi
                  rcases List.mem_append.mp hi with hi | hi
                  · exact hrestinv i hi
                  · simp only [List.mem_singleton] at hi
                    subst hi
                    exact hitem
                · simp only [List.length_append, List.length_singleton]
                  omega
                · simp only [List.length_append, List.length_singleton]
                  omega
                · simp only [List.length_append, List.length_singleton]
                  omega
              · simp only [hcond, Bool.false_eq_true, if_false]
                exact IH rest (pathKey ix iy Side.inn :: v) f1' f2' hrestinv
                  (by omega) (by omega) (by omega)
            | out =>
              have hp3 := outPushes_length_le grid rows cols cell ix iy
              refine IH (rest ++ outPushes grid rows cols cell ix iy)
                (pathKey ix iy Side.out :: v) f1' f2' ?_ ?_ ?_ ?_
              · intro i hi
                rcases List.mem_append.mp hi with hi | hi
                · exact hrestinv i hi
                · exact outPushes_bounds grid rows cols cols' cell ix iy hcc
                    hitem.1 hitem.2 i hi
              · simp only [List.length_append]
                omega
              · simp only [List.length_append]
                omega
              · simp only [List.length_append]
                omega

theorem terminalRow_length (r cols' : Nat) :
    ((List.range cols').flatMap (fun x =>
      [({ x := x, y := r, side := .inn } : QueueItem),
       { x := x, y := r, side := .out }])).length = 2 * cols' := by
  induction cols' with
  | zero => rfl
  | succ c ihc =>
    rw [List.range_succ]
    simp only [List.flatMap_append, List.length_append, ihc, List.flatMap_cons,
      List.flatMap_nil, List.append_nil, List.length_cons, List.length_singleton,
      List.length_nil]
    omega

theorem allTerminals_length (rows cols' : Nat) :
    (allTerminals rows cols').length = rows * (2 * cols') := by
  unfold allTerminals
  induction rows with
  | zero => simp
  | succ r ih =>
    rw [List.range_succ]
    simp only [List.flatMap_append, List.length_append, ih, List.flatMap_cons,
      List.flatMap_nil, List.append_nil, terminalRow_length]
    ring

theorem initQueue_bounds (grid : List (List GridCell)) (rows cols' : Nat)
    (hc1 : 1 ≤ cols') :
    ∀ i ∈ initQueue grid rows, i.x < cols' ∧ i.y < rows := by
  intro i hi
  simp only [initQueue, List.mem_filterMap, List.mem_range] at hi
  obtain ⟨y, hy, hsome⟩ := hi
  split_ifs at hsome
  simp only [Option.some.injEq] at hsome
  subst hsome
  exact ⟨hc1, hy⟩

theorem initQueue_length_le (grid : List (List GridCell)) (rows : Nat) :
    (initQueue grid rows).length ≤ rows := by
  have h := List.length_filterMap_le
    (fun y => if (cellAt grid y 0).isSome then
        some ({ x := 0, y := y, side := .inn } : QueueItem) else none)
    (List.range rows)
  simpa using h

theorem unseenCount_nil_le (rows cols' : Nat) :
    unseenCount rows cols' [] ≤ rows * (2 * cols') := by
  unfold unseenCount
  calc (List.filter _ (allTerminals rows cols')).length
      ≤ (allTerminals rows cols').length := List.length_filter_le _ _
    _ = rows * (2 * cols') := allTerminals_length rows cols'

/-- Every key the BFS ever records is the key of an in-bounds terminal, and
no key is recorded twice. -/
theorem bfsLoop_visited_props (grid : List (List GridCell))
    (ioState : List (String × Bool)) (rows cols cols' : Nat) (hcc : cols ≤ cols') :
    ∀ (fuel : Nat) (q : List QueueItem) (v : List String),
      (∀ i ∈ q, i.x < cols' ∧ i.y < rows) →
      (∀ k ∈ v, ∃ t ∈ allTerminals rows cols', k = pathKey t.x t.y t.side) →
      v.Nodup →
      (∀ k ∈ bfsLoop grid ioState rows cols fuel q v,
        ∃ t ∈ allTerminals rows cols', k = pathKey t.x t.y t.side) ∧
      (bfsLoop grid ioState rows cols fuel q v).Nodup := by
  intro fuel
  induction fuel with
  | zero => intro q v _ hsub hnd; exact ⟨hsub, hnd⟩
  | succ fuel IH =>
    intro q v hinv hsub hnd
    cases q with
    | nil => exact ⟨hsub, hnd⟩
    | cons item rest =>
      have hrestinv : ∀ i ∈ rest, i.x < cols' ∧ i.y < rows :=
        fun i hi => hinv i (List.mem_cons_of_mem _ hi)
      have hitem := hinv item (List.mem_cons_self _ _)
      obtain ⟨ix, iy, iside⟩ := item
      simp only [bfsLoop]
      by_cases hv : v.contains (pathKey ix iy iside) = true
      · simp only [hv, if_true]
        exact IH rest v hrestinv hsub hnd
      · have hv' : v.contains (pathKey ix iy iside) = false := by simpa using hv
        have hnotmem : pathKey ix iy iside ∉ v := by simpa using hv'
        simp only [hv', Bool.false_eq_true, if_false]
        have hsub' : ∀ k ∈ pathKey ix iy iside :: v,
            ∃ t ∈ allTerminals rows cols', k = pathKey t.x t.y t.side := by
          intro k hk
          rcases List.mem_cons.mp hk with rfl | hk
          · exact ⟨⟨ix, iy, iside⟩,
              mem_allTerminals rows cols' _ hitem.1 hitem.2, rfl⟩
          · exact hsub k hk
        have hnd' : (pathKey ix iy iside :: v).Nodup := List.Nodup.cons hnotmem hnd
        cases hcell : cellAt grid iy ix with
        | none =>
          simp only [hcell]
          exact IH rest _ hrestinv hsub' hnd'
        | some cell =>
          simp only [hcell]
          cases iside with
          | inn =>
            by_cases hcond : conducts cell ioState = true
            · simp only [hcond, if_true]
              refine IH (rest ++ [{ x := ix, y := iy, side := .out }]) _ ?_ hsub' hnd'
              intro i hi
              rcases List.mem_append.mp hi with hi | hi
              · exact hrestinv i hi
              · simp only [List.mem_singleton] at hi
                subst hi
                exact hitem
            · simp only [hcond, Bool.false_eq_true, if_false]
              exact IH rest _ hrestinv hsub' hnd'
          | out =>
            refine IH (rest ++ outPushes grid rows cols cell ix iy) _ ?_ hsub' hnd'
            intro i hi
            rcases List.mem_append.mp hi with hi | hi
            · exact hrestinv i hi
            · exact outPushes_bounds grid rows cols cols' cell ix iy hcc
                hitem.1 hitem.2 i hi

/-- C9: the power-flow BFS always terminates. Handing the loop any amount
of fuel beyond the stated bound changes nothing — the queue is drained —
and the visited/energized set records each `(x, y, side)` terminal at most
once, so on a non-degenerate grid at most `2·rows·cols` keys are ever
inserted. -/
theorem calculatePowerFlow_terminates (grid : List (List GridCell))
    (ioState : List (String × Bool)) :
    (∀ extra : Nat,
      bfsLoop grid ioState grid.length (grid.headD []).length
          (bfsFuel grid.length (grid.headD []).length + extra)
          (initQueue grid grid.length) []
        = calculatePowerFlow grid ioState) ∧
    (calculatePowerFlow grid ioState).Nodup ∧
    (0 < (grid.headD []).length →
      (calculatePowerFlow grid ioState).length ≤
        2 * grid.length * (grid.headD []).length) := by
  have hcc : (grid.headD []).length ≤ max 1 (grid.headD []).length :=
    le_max_right _ _
  have hinit := initQueue_bounds grid grid.length (max 1 (grid.headD []).length)
    (le_max_left _ _)
  have hmeas : (initQueue grid grid.length).length +
      4 * unseenCount grid.length (max 1 (grid.headD []).length) [] ≤
      bfsFuel grid.length (grid.headD []).length := by
    have h1 := initQueue_length_le grid grid.length
    have h2 := unseenCount_nil_le grid.length (max 1 (grid.headD []).length)
    have h3 : 4 * (grid.length * (2 * max 1 (grid.headD []).length)) =
        8 * grid.length * max 1 (grid.headD []).length := by ring
    unfold bfsFuel
    omega
  refine ⟨?_, ?_, ?_⟩
  · intro extra
    cases grid with
    | nil =>
      have hq : initQueue ([] : List (List GridCell))
          ([] : List (List GridCell)).length = [] := rfl
      rw [hq, bfsLoop_nil]
      rfl
    | cons g0 grest =>
      have hne : ((g0 :: grest) : List (List GridCell)).isEmpty = false := rfl
      simp only [calculatePowerFlow, hne, Bool.false_eq_true, if_false]
      exact bfsLoop_stable (g0 :: grest) ioState (g0 :: grest).length
        ((g0 :: grest).headD []).length (max 1 ((g0 :: grest).headD []).length) hcc
        (bfsFuel (g0 :: grest).length ((g0 :: grest).headD []).length)
        (initQueue (g0 :: grest) (g0 :: grest).length) [] _ _
        hinit hmeas (by omega) hmeas
  · cases grid with
    | nil => simp [calculatePowerFlow]
    | cons g0 grest =>
      have hne : ((g0 :: grest) : List (List GridCell)).isEmpty = false := rfl
      simp only [calculatePowerFlow, hne, Bool.false_eq_true, if_false]
      exact (bfsLoop_visited_props (g0 :: grest) ioState (g0 :: grest).length
        ((g0 :: grest).headD []).length (max 1 ((g0 :: grest).headD []).length) hcc
        _ _ [] hinit (fun k hk => absurd hk (List.not_mem_nil k)) List.nodup_nil).2
  · intro hcols
    cases grid with
    | nil => exact absurd hcols (by simp)
    | cons g0 grest =>
      have hmax : max 1 ((g0 :: grest).headD []).length =
          ((g0 :: grest).headD []).length := Nat.max_eq_right hcols
      have hne : ((g0 :: grest) : List (List GridCell)).isEmpty = false := rfl
      simp only [calculatePowerFlow, hne, Bool.false_eq_true, if_false]
      have hprops := bfsLoop_visited_props (g0 :: grest) ioState (g0 :: grest).length
        ((g0 :: grest).headD []).length (max 1 ((g0 :: grest).headD []).length) hcc
        (bfsFuel (g0 :: grest).length ((g0 :: grest).headD []).length)
        (initQueue (g0 :: grest) (g0 :: grest).length) [] hinit
        (fun k hk => absurd hk (List.not_mem_nil k)) List.nodup_nil
      have hsubset : bfsLoop (g0 :: grest) ioState (g0 :: grest).length
          ((g0 :: grest).headD []).length
          (bfsFuel (g0 :: grest).length ((g0 :: grest).headD []).length)
          (initQueue (g0 :: grest) (g0 :: grest).length) [] ⊆
          (allTerminals (g0 :: grest).length
            (max 1 ((g0 :: grest).headD []).length)).map
            (fun t => pathKey t.x t.y t.side) := by
        intro k hk
        obtain ⟨t, ht, hkey⟩ := hprops.1 k hk
        exact List.mem_map.mpr ⟨t, ht, hkey.symm⟩
      have hsp := List.subperm_of_subset hprops.2 hsubset
      have hlen := hsp.length_le
      rw [List.length_map, allTerminals_length, hmax] at hlen
      calc (bfsLoop (g0 :: grest) ioState (g0 :: grest).length
              ((g0 :: grest).headD []).length
              (bfsFuel (g0 :: grest).length ((g0 :: grest).headD []).length)
              (initQueue (g0 :: grest) (g0 :: grest).length) []).length
          ≤ (g0 :: grest).length * (2 * ((g0 :: grest).headD []).length) := hlen
        _ = 2 * (g0 :: grest).length * ((g0 :: grest).headD []).length := by ring

/-- Witness for C9 on the 1×1 grid of `layout([LD X0])`: one extra unit of
fuel changes nothing, and at most `2·1·1` terminals are energized. -/
theorem calculatePowerFlow_terminates_witness :
    (bfsLoop (parseLadderLogic [ldX0]) [] (parseLadderLogic [ldX0]).length
        ((parseLadderLogic [ldX0]).headD []).length
        (bfsFuel (parseLadderLogic [ldX0]).length
          ((parseLadderLogic [ldX0]).headD []).length + 1)
        (initQueue (parseLadderLogic [ldX0]) (parseLadderLogic [ldX0]).length) []
      = calculatePowerFlow (parseLadderLogic [ldX0]) []) ∧
    (calculatePowerFlow (parseLadderLogic [ldX0]) []).length ≤
      2 * (parseLadderLogic [ldX0]).length *
        ((parseLadderLogic [ldX0]).headD []).length :=
  ⟨(calculatePowerFlow_terminates (parseLadderLogic [ldX0]) []).1 1,
   (calculatePowerFlow_terminates (parseLadderLogic [ldX0]) []).2.2 (by decide)⟩
